import Mathlib

/-!
Verification development for the flow-hash pcap sharder, structured-log
merger and boolean query engine of the zeek-try-cluster repository.
Bytes are modelled as natural numbers below 256, byte strings as lists,
and the stateful Python loops as explicit state-passing recursions.
-/

set_option maxRecDepth 4000

/-! ### Byte and word helpers -/

/-- Truncate to a 32-bit word. -/
def w32 (x : Nat) : Nat := x % 4294967296

/-- Rotate a 32-bit word left by n bits. -/
def rotl32 (n x : Nat) : Nat := w32 (x <<< n) ||| (x >>> (32 - n))

/-- Big-endian encoding of v into n bytes, most significant first. -/
def toBytesBE : Nat → Nat → List Nat
  | 0, _ => []
  | n+1, v => toBytesBE n (v / 256) ++ [v % 256]

/-- Reads a big-endian unsigned integer, as int.from_bytes with byteorder big. -/
def fromBytesBE (bs : List Nat) : Nat := bs.foldl (fun a b => a * 256 + b) 0

/-- Reads a little-endian unsigned integer, as int.from_bytes with byteorder little. -/
def fromBytesLE (bs : List Nat) : Nat := bs.foldr (fun b a => a * 256 + b) 0

/-! ### SHA-1 (FIPS 180), the digest used by hashlib.sha1 in split_pcap.py -/

/-- SHA-1 round function, by round index t. -/
def sha1F (t b c d : Nat) : Nat :=
  if t < 20 then (b &&& c) ||| ((b ^^^ 4294967295) &&& d)
  else if t < 40 then b ^^^ c ^^^ d
  else if t < 60 then (b &&& c) ||| (b &&& d) ||| (c &&& d)
  else b ^^^ c ^^^ d

/-- SHA-1 round constant, by round index t. -/
def sha1K (t : Nat) : Nat :=
  if t < 20 then 0x5A827999
  else if t < 40 then 0x6ED9EBA1
  else if t < 60 then 0x8F1BBCDC
  else 0xCA62C1D6

/-- Message-schedule expansion: appends n further words to the 16 chunk words. -/
def sha1Expand (ws : List Nat) : Nat → List Nat
  | 0 => ws
  | n+1 =>
    let w := sha1Expand ws n
    let l := w.length
    w ++ [rotl32 1 ((w.getD (l-3) 0 ^^^ w.getD (l-8) 0) ^^^ (w.getD (l-14) 0 ^^^ w.getD (l-16) 0))]

/-- One SHA-1 round on the five-register state, fed (round index, schedule word). -/
def sha1Round (st : Nat × Nat × Nat × Nat × Nat) (tw : Nat × Nat) : Nat × Nat × Nat × Nat × Nat :=
  let (a, b, c, d, e) := st
  let (t, wt) := tw
  let tmp := w32 (rotl32 5 a + sha1F t b c d + e + sha1K t + wt)
  (tmp, a, rotl32 30 b, c, d)

/-- Group a 64-byte chunk into big-endian 32-bit words. -/
def bytesToWordsBE (bs : List Nat) : List Nat :=
  (List.range (bs.length / 4)).map (fun i => fromBytesBE ((bs.drop (4*i)).take 4))

/-- Process one 64-byte chunk, updating the running hash state. -/
def sha1Chunk (h : Nat × Nat × Nat × Nat × Nat) (chunk : List Nat) : Nat × Nat × Nat × Nat × Nat :=
  let ws := sha1Expand (bytesToWordsBE chunk) 64
  let (a, b, c, d, e) := ((List.range 80).zip ws).foldl sha1Round h
  let (h0, h1, h2, h3, h4) := h
  (w32 (h0+a), w32 (h1+b), w32 (h2+c), w32 (h3+d), w32 (h4+e))

/-- SHA-1 padding: 0x80, zeros to 56 mod 64, then the 64-bit big-endian bit length. -/
def sha1PadBytes (msg : List Nat) : List Nat :=
  msg ++ [128] ++ List.replicate ((119 - msg.length % 64) % 64) 0 ++ toBytesBE 8 (8 * msg.length)

/-- SHA-1 digest of a byte string, as a list of 20 bytes. -/
def sha1 (msg : List Nat) : List Nat :=
  let padded := sha1PadBytes msg
  let chunks := (List.range (padded.length / 64)).map (fun i => (padded.drop (64*i)).take 64)
  let (h0, h1, h2, h3, h4) :=
    chunks.foldl sha1Chunk (0x67452301, 0xEFCDAB89, 0x98BADCFE, 0x10325476, 0xC3D2E1F0)
  toBytesBE 4 h0 ++ toBytesBE 4 h1 ++ toBytesBE 4 h2 ++ toBytesBE 4 h3 ++ toBytesBE 4 h4

/-- Embeds split_pcap.py hash_key: the first 8 digest bytes as a big-endian integer. -/
def hash_key (key : List Nat) : Nat := fromBytesBE ((sha1 key).take 8)

/-! ### split_pcap.py: flow key extraction -/

def PCAP_GLOBAL_HDR_LEN : Nat := 24

def PCAP_PKT_HDR_LEN : Nat := 16

/-- Embeds fmt_ipv4: dotted-decimal rendering of 4 address bytes. -/
def fmt_ipv4 (ip4 : List Nat) : String :=
  String.intercalate "." (ip4.map (fun b => toString b))

/-- Lowercase hexadecimal digit for a value below 16. -/
def hexChar (n : Nat) : Char :=
  if n < 10 then Char.ofNat (48 + n) else Char.ofNat (87 + n)

/-- Four-digit zero-padded lowercase hex, as the 04x format of a 16-bit group. -/
def hex4 (n : Nat) : String :=
  String.mk [hexChar (n / 4096 % 16), hexChar (n / 256 % 16), hexChar (n / 16 % 16), hexChar (n % 16)]

/-- Embeds fmt_ipv6: eight colon-separated 16-bit big-endian groups. -/
def fmt_ipv6 (ip6 : List Nat) : String :=
  String.intercalate ":" ((List.range 8).map (fun i => hex4 (fromBytesBE ((ip6.drop (2*i)).take 2))))

/-- Embeds ipv4_tuple of split_pcap.py: parses ethernet plus IPv4 headers and
returns (src address bytes, dst address bytes, src port, dst port, protocol),
or none when any length or format guard of the source fails. -/
def ipv4_tuple (pkt : List Nat) : Option (List Nat × List Nat × Nat × Nat × Nat) :=
  if pkt.length < 14 + 20 then none else
  if fromBytesBE ((pkt.drop 12).take 2) ≠ 0x0800 then none else
  let ip := pkt.drop 14
  let ver_ihl := ip.getD 0 0
  if ver_ihl >>> 4 ≠ 4 then none else
  let ihl := (ver_ihl &&& 0x0F) * 4
  if ip.length < ihl then none else
  let proto := ip.getD 9 0
  let src_ip := (ip.drop 12).take 4
  let dst_ip := (ip.drop 16).take 4
  if proto = 6 ∨ proto = 17 then
    if ip.length < ihl + 4 then none else
    let l4 := ip.drop ihl
    some (src_ip, dst_ip, fromBytesBE (l4.take 2), fromBytesBE ((l4.drop 2).take 2), proto)
  else
    some (src_ip, dst_ip, 0, 0, proto)

/-- Embeds ipv6_tuple of split_pcap.py. -/
def ipv6_tuple (pkt : List Nat) : Option (List Nat × List Nat × Nat × Nat × Nat) :=
  if pkt.length < 14 + 40 then none else
  if fromBytesBE ((pkt.drop 12).take 2) ≠ 0x86DD then none else
  let ip := pkt.drop 14
  if ip.getD 0 0 >>> 4 ≠ 6 then none else
  let proto := ip.getD 6 0
  let src_ip := (ip.drop 8).take 16
  let dst_ip := (ip.drop 24).take 16
  if proto = 6 ∨ proto = 17 then
    if ip.length < 40 + 4 then none else
    let l4 := ip.drop 40
    some (src_ip, dst_ip, fromBytesBE (l4.take 2), fromBytesBE ((l4.drop 2).take 2), proto)
  else
    some (src_ip, dst_ip, 0, 0, proto)

/-- Display tuple reported for each packet, as the dict built in tuple_for_packet. -/
structure PktRep where
  ip_ver : Nat
  src_ip : String
  dst_ip : String
  src_port : Nat
  dst_port : Nat
  proto : Nat
deriving DecidableEq

/-- Embeds tuple_for_packet: the flow key bytes and the display tuple. The key
is a tag byte (ASCII 4, 6 or X) followed by the identifying fields, or the
first 64 packet bytes for the fallback. -/
def tuple_for_packet (pkt : List Nat) : List Nat × PktRep :=
  match ipv4_tuple pkt with
  | some (src_ip, dst_ip, sp, dp, pr) =>
    (52 :: (src_ip ++ dst_ip ++ toBytesBE 2 sp ++ toBytesBE 2 dp ++ [pr]),
     ⟨4, fmt_ipv4 src_ip, fmt_ipv4 dst_ip, sp, dp, pr⟩)
  | none =>
  match ipv6_tuple pkt with
  | some (src_ip, dst_ip, sp, dp, pr) =>
    (54 :: (src_ip ++ dst_ip ++ toBytesBE 2 sp ++ toBytesBE 2 dp ++ [pr]),
     ⟨6, fmt_ipv6 src_ip, fmt_ipv6 dst_ip, sp, dp, pr⟩)
  | none =>
    (88 :: pkt.take 64, ⟨0, "-", "-", 0, 0, 0⟩)

/-! ### split_pcap.py: the sharding pass -/

/-- One row of the flow accumulator, as the dict stored per flow key. -/
structure FlowRec where
  worker : Nat
  ip_ver : Nat
  src_ip : String
  dst_ip : String
  src_port : Nat
  dst_port : Nat
  proto : Nat
  pkt_count : Nat
deriving DecidableEq

/-- Embeds the flow_map update of the sharding loop: insert a fresh record on
first sight of a key, otherwise increment the packet count in place.  The
association list preserves insertion order like a Python dict. -/
def bumpFlow (m : List (List Nat × FlowRec)) (key : List Nat) (worker_id : Nat)
    (rep : PktRep) : List (List Nat × FlowRec) :=
  if m.any (fun kv => kv.1 = key) then
    m.map (fun kv =>
      if kv.1 = key then (kv.1, { kv.2 with pkt_count := kv.2.pkt_count + 1 }) else kv)
  else
    m ++ [(key, ⟨worker_id, rep.ip_ver, rep.src_ip, rep.dst_ip,
                 rep.src_port, rep.dst_port, rep.proto, 1⟩)]

/-- Embeds the while loop of split_pcap_flowhash: walks the packet records
from offset off, appending each record header and payload to the output of the
shard selected by hash_key of the flow key mod workers, and accumulating the
flow map.  The loop of the source terminates because the offset strictly
grows; the fuel argument bounds the remaining iterations and is always
sufficient at the call site since every record consumes at least 16 bytes. -/
def splitLoop (data : List Nat) (workers : Nat) :
    Nat → Nat → List (List Nat) → List (List Nat × FlowRec) →
    List (List Nat) × List (List Nat × FlowRec)
  | 0, _, outs, fmap => (outs, fmap)
  | fuel+1, off, outs, fmap =>
    if off + PCAP_PKT_HDR_LEN ≤ data.length then
      let pkt_hdr := (data.drop off).take PCAP_PKT_HDR_LEN
      let incl_len := fromBytesLE ((pkt_hdr.drop 8).take 4)
      let pkt_off := off + PCAP_PKT_HDR_LEN
      let pkt_end := pkt_off + incl_len
      if data.length < pkt_end then (outs, fmap)
      else
        let pkt := (data.drop pkt_off).take incl_len
        let kr := tuple_for_packet pkt
        let idx := hash_key kr.1 % workers
        let outs := outs.set idx (outs.getD idx [] ++ pkt_hdr ++ pkt)
        splitLoop data workers fuel pkt_end outs (bumpFlow fmap kr.1 (idx + 1) kr.2)
    else (outs, fmap)

/-- The packet records the sharding loop visits: pairs of the 16-byte record
header and the declared-length payload, walked with the same guards and
offset chaining as splitLoop. -/
def recLoop (data : List Nat) : Nat → Nat → List (List Nat × List Nat)
  | 0, _ => []
  | fuel+1, off =>
    if off + PCAP_PKT_HDR_LEN ≤ data.length then
      let pkt_hdr := (data.drop off).take PCAP_PKT_HDR_LEN
      let incl_len := fromBytesLE ((pkt_hdr.drop 8).take 4)
      let pkt_end := off + PCAP_PKT_HDR_LEN + incl_len
      if data.length < pkt_end then []
      else (pkt_hdr, (data.drop (off + PCAP_PKT_HDR_LEN)).take incl_len) ::
        recLoop data fuel pkt_end
    else []

/-- The complete packet records of a capture, in input order. -/
def records (data : List Nat) : List (List Nat × List Nat) :=
  recLoop data data.length PCAP_GLOBAL_HDR_LEN

/-- Flow key of one packet record. -/
def keyOf (r : List Nat × List Nat) : List Nat := (tuple_for_packet r.2).1

/-- Zero-based shard index assigned to a flow key for N workers. -/
def shardIdx (key : List Nat) (n : Nat) : Nat := hash_key key % n

/-- One-based shard id assigned to a flow key for N workers. -/
def workerId (key : List Nat) (n : Nat) : Nat := shardIdx key n + 1

/-- Ascending comparison on the sort key of the shard-map rows:
(worker, negated pkt_count, ip_ver, src_ip, dst_ip, proto). -/
def flowRowLe (a b : FlowRec) : Bool :=
  if a.worker ≠ b.worker then a.worker < b.worker
  else if a.pkt_count ≠ b.pkt_count then b.pkt_count < a.pkt_count
  else if a.ip_ver ≠ b.ip_ver then a.ip_ver < b.ip_ver
  else if a.src_ip ≠ b.src_ip then a.src_ip < b.src_ip
  else if a.dst_ip ≠ b.dst_ip then a.dst_ip < b.dst_ip
  else a.proto ≤ b.proto

/-- Per-shard output byte strings produced by the sharding pass: every shard
file starts with the shared 24-byte global header, then the routed records. -/
def shardOutputs (data : List Nat) (workers : Nat) : List (List Nat) :=
  (splitLoop data workers data.length PCAP_GLOBAL_HDR_LEN
    (List.replicate workers (data.take PCAP_GLOBAL_HDR_LEN)) []).1

/-- Final flow map of the sharding pass, in key insertion order. -/
def flowMapOf (data : List Nat) (workers : Nat) : List (List Nat × FlowRec) :=
  (splitLoop data workers data.length PCAP_GLOBAL_HDR_LEN
    (List.replicate workers (data.take PCAP_GLOBAL_HDR_LEN)) []).2

/-- Embeds split_pcap_flowhash of split_pcap.py on the capture bytes: raises
(models as error) when the input is below the 24-byte global header, else
writes the global header to all worker outputs, routes every record by the
flow hash, and returns the shard outputs with the sorted shard-map rows.
Stable sorting by the source sort key models the list.sort call. -/
def split_pcap_flowhash (data : List Nat) (workers : Nat) :
    Except String (List (List Nat) × List FlowRec) :=
  if data.length < PCAP_GLOBAL_HDR_LEN then .error "pcap too small"
  else
    .ok (shardOutputs data workers,
         ((flowMapOf data workers).map (fun kv => kv.2)).mergeSort flowRowLe)

/-! ### merge_logs.py -/

/-- ASCII whitespace recognised by the Python string strip and regex space
class on the inputs modelled here. -/
def isSpaceChar (c : Char) : Bool :=
  c == ' ' || c == '\t' || c == '\n' || c == '\x0d' || c == '\x0b' || c == '\x0c'

/-- Embeds the Python str.strip default behaviour. -/
def pyStrip (s : String) : String :=
  String.mk (((s.data.dropWhile isSpaceChar).reverse.dropWhile isSpaceChar).reverse)

/-- Uppercase of a string, as the Python str.upper on the ASCII inputs
modelled here. -/
def pyUpper (s : String) : String := String.mk (s.data.map Char.toUpper)

/-- Prefix test, as the Python str.startswith. -/
def pyStartsWith (s pre : String) : Bool := s.data.take pre.data.length == pre.data

/-- Split on one separator character, as the Python str.split with a
one-character separator: the empty string gives one empty part and adjacent
separators give empty parts. -/
def splitOnChar (sep : Char) : List Char → List (List Char)
  | [] => [[]]
  | c :: rest =>
    let r := splitOnChar sep rest
    if c == sep then [] :: r
    else
      match r with
      | [] => [[c]]
      | h :: t => (c :: h) :: t

/-- Embeds the line.split on a tab used by the log readers. -/
def pySplitTab (s : String) : List String := (splitOnChar '\t' s.data).map String.mk

/-- Embeds read_zeek_log of merge_logs.py on the lines of one log file:
returns (header lines, field list, data rows).  Lines starting with the hash
mark are header lines, the fields line replaces the field list, empty lines
are skipped and every other line splits on tabs into one row. -/
def read_zeek_log (lines : List String) : List String × List String × List (List String) :=
  lines.foldl
    (fun acc line =>
      if pyStartsWith line "#" then
        (acc.1 ++ [line],
         if pyStartsWith line "#fields" then (pySplitTab line).drop 1 else acc.2.1,
         acc.2.2)
      else if line == "" then acc
      else (acc.1, acc.2.1, acc.2.2 ++ [pySplitTab line]))
    ([], [], [])

/-- Embeds ts_index of merge_logs.py: index of the first field named ts. -/
def ts_index (fields : List String) : Option Nat :=
  fields.findIdx? (fun f => f == "ts")

/-- Value of one decimal digit character. -/
def digitsVal (cs : List Char) : Nat := cs.foldl (fun a c => a * 10 + (c.toNat - 48)) 0

/-- Parse of a decimal literal as done by the Python float constructor,
restricted to the forms occurring in the logs modelled here: optional
whitespace and sign, digits with at most one point, at least one digit.
Exponent, infinity and nan spellings are outside the model. -/
def pyFloat? (s : String) : Option Rat :=
  let cs := (pyStrip s).data
  let sgn : Bool := cs.headD ' ' == '-'
  let cs := if cs.headD ' ' == '-' || cs.headD ' ' == '+' then cs.drop 1 else cs
  let ipart := cs.takeWhile Char.isDigit
  let rest := cs.dropWhile Char.isDigit
  match rest with
  | [] =>
    if ipart.isEmpty then none
    else some (if sgn then -(digitsVal ipart : Rat) else (digitsVal ipart : Rat))
  | '.' :: frac =>
    if frac.all Char.isDigit && !(ipart.isEmpty && frac.isEmpty) then
      let v : Rat := (digitsVal ipart : Rat) + (digitsVal frac : Rat) / ((10 : Rat) ^ frac.length)
      some (if sgn then -v else v)
    else none
  | _ => none

/-- Embeds ts_val of merge_logs.py: the row value at the canonical ts column
as a number, zero when the column is missing or fails to parse. -/
def ts_val (ts_i : Nat) (r : List String) : Rat :=
  if r.length ≤ ts_i then 0
  else ((pyFloat? (r.getD ts_i "")).getD 0)

/-- Boolean ascending comparison on the parsed ts value. -/
def tsLe (ts_i : Nat) (a b : List String) : Bool := ts_val ts_i a ≤ ts_val ts_i b

/-- Concatenation of the data rows of all worker files in the given
(name-sorted) order, each worker file in its own row order. -/
def concatRows (files : List (List String)) : List (List String) :=
  files.foldl (fun acc f => acc ++ (read_zeek_log f).2.2) []

/-- Embeds the per-log-name body of merge_worker_logs: header and field list
come from the first worker file, rows are concatenated across the files in
the given (name-sorted) order, and when the canonical field list has a ts
field the rows are stable-sorted ascending by its parsed value.  Returns the
header lines and the final row list; the written file is the header lines
followed by the tab-joined rows.  The stable mergeSort models the stable
Python list.sort keyed by ts_val. -/
def merge_worker_logs (files : List (List String)) : List String × List (List String) :=
  match files with
  | [] => ([], [])
  | f0 :: rest =>
    let first := read_zeek_log f0
    let all_rows := concatRows (f0 :: rest)
    match ts_index first.2.1 with
    | some ts_i => (first.1, all_rows.mergeSort (tsLe ts_i))
    | none => (first.1, all_rows)

/-- Output lines of one merged log: canonical header lines then one
tab-joined line per row. -/
def mergedLines (files : List (List String)) : List String :=
  let (hdr, rows) := merge_worker_logs files
  hdr ++ rows.map (fun r => String.intercalate "\t" r)

/-! ### main.py: query tokenizer -/

/-- Case-insensitive match of the pattern against a prefix of the input;
returns the remaining input on success. -/
def ciStarts : List Char → List Char → Option (List Char)
  | [], rest => some rest
  | _ :: _, [] => none
  | p :: ps, c :: cs => if c.toLower == p.toLower then ciStarts ps cs else none

/-- Maximal run of characters other than whitespace and parentheses, with
the remaining input. -/
def takeAtom : List Char → List Char × List Char
  | [] => ([], [])
  | c :: cs =>
    if isSpaceChar c || c == '(' || c == ')' then ([], c :: cs)
    else
      let (t, r) := takeAtom cs
      (c :: t, r)

/-- Embeds one TOKEN_RE match step at the current position, after skipping
leading whitespace: the regex alternatives apply in written order, so a
parenthesis, then the case-insensitive keywords AND, OR, NOT as plain
prefixes, then a maximal non-space non-parenthesis run.  The quoted-string
alternative of the source regex is listed after the atom alternative, and
since a quote character is itself a legal atom character that alternative
can never apply; it is therefore absent from the model.  The token appended
is the matched text in original case. -/
def tokenizeAux (s : List Char) : Nat → List String
  | 0 => []
  | fuel+1 =>
    let s := s.dropWhile isSpaceChar
    match s with
    | [] => []
    | c :: cs =>
      if c == '(' then "(" :: tokenizeAux cs fuel
      else if c == ')' then ")" :: tokenizeAux cs fuel
      else
        match ciStarts "AND".data s with
        | some rest => String.mk (s.take 3) :: tokenizeAux rest fuel
        | none =>
        match ciStarts "OR".data s with
        | some rest => String.mk (s.take 2) :: tokenizeAux rest fuel
        | none =>
        match ciStarts "NOT".data s with
        | some rest => String.mk (s.take 3) :: tokenizeAux rest fuel
        | none =>
          let (t, r) := takeAtom s
          String.mk t :: tokenizeAux r fuel

/-- Embeds tokenize of main.py. -/
def tokenize (q : String) : List String := tokenizeAux q.data q.data.length

/-! ### main.py: term predicates -/

/-- Left-to-right non-overlapping replacement of the two-character sequence
a b by the character out, as one Python str.replace call on the pairs used
in strip_quotes. -/
def replacePair (a b out : Char) : List Char → List Char
  | [] => []
  | [c] => [c]
  | c :: d :: rest =>
    if c == a && d == b then out :: replacePair a b out rest
    else c :: replacePair a b out (d :: rest)

/-- Embeds strip_quotes of main.py: removes one pair of surrounding double
quotes and unescapes backslash-quote then backslash-backslash inside. -/
def strip_quotes (s : String) : String :=
  let cs := s.data
  if 2 ≤ cs.length && cs.headD ' ' == '"' && cs.getLastD ' ' == '"' then
    String.mk (replacePair '\\' '\\' '\\' (replacePair '\\' '"' '"' ((cs.drop 1).dropLast)))
  else s

/-- Anchored wildcard match as compiled by wildcard_to_regex and applied by
match_value: a star matches any run, a question mark any one character, and
every other character matches itself case-insensitively.  The regex
compilation of the source cannot fail since all non-wildcard characters are
escaped, so the substring fallback of match_value is unreachable and absent
from the model. -/
def wildMatchF : Nat → List Char → List Char → Bool
  | 0, _, _ => false
  | _+1, [], vs => vs.isEmpty
  | fuel+1, '*' :: ps, vs =>
    wildMatchF fuel ps vs ||
      (match vs with
       | [] => false
       | _ :: vt => wildMatchF fuel ('*' :: ps) vt)
  | fuel+1, '?' :: ps, vs =>
    (match vs with
     | [] => false
     | _ :: vt => wildMatchF fuel ps vt)
  | fuel+1, p :: ps, vs =>
    (match vs with
     | [] => false
     | v :: vt => p.toLower == v.toLower && wildMatchF fuel ps vt)

/-- Entry point with fuel: every recursive call of wildMatchF shrinks the
combined length of pattern and value, so this fuel never runs out and the
zero-fuel branch is unreachable. -/
def wildMatch (ps vs : List Char) : Bool := wildMatchF (ps.length + vs.length + 1) ps vs

/-- Embeds match_value of main.py. -/
def match_value (val pat : String) : Bool := wildMatch pat.data val.data

/-- Embeds the field-term regex of term_predicate: group one is the maximal
nonempty run of characters other than colon and equals, then one separator,
then a nonempty remainder.  The source then strips both groups and removes
quotes from the value. -/
def splitFieldTerm (s : String) : Option (String × String) :=
  let cs := s.data
  match cs.findIdx? (fun c => c == ':' || c == '=') with
  | none => none
  | some i =>
    if i == 0 then none
    else if cs.length ≤ i + 1 then none
    else some (pyStrip (String.mk (cs.take i)),
               strip_quotes (pyStrip (String.mk (cs.drop (i + 1)))))

/-- A decoded row: association list from field name to value, with unique
keys when built by the log decoder, mirroring a Python dict. -/
abbrev Row := List (String × String)

/-- Embeds row.get(field, empty): value of the field, empty when absent. -/
def rowGet (row : Row) (f : String) : String :=
  ((List.find? (fun kv => kv.1 == f) row).map (fun kv => kv.2)).getD ""

/-- Embeds the closure returned by term_predicate for the token: either a
field-scoped wildcard match or a bare match over every field value. -/
def evalTerm (tok : String) (row : Row) : Bool :=
  let term := strip_quotes tok
  match splitFieldTerm term with
  | some (f, pat) => match_value (rowGet row f) pat
  | none => (List.map (fun kv => kv.2) row).any (fun v => match_value v term)

/-! ### main.py: shunting-yard and compilation -/

/-- Operator precedence used by to_rpn. -/
def precOf : String → Option Nat
  | "NOT" => some 3
  | "AND" => some 2
  | "OR" => some 1
  | _ => none

/-- Embeds norm inside to_rpn: uppercase a keyword, keep any other token. -/
def normTok (t : String) : String :=
  let u := pyUpper t
  if u == "AND" || u == "OR" || u == "NOT" then u else t

/-- Pops operators of precedence at least p off the stack; returns the popped
operators in pop order and the remaining stack. -/
def popWhileGe (p : Nat) : List String → List String × List String
  | [] => ([], [])
  | op :: rest =>
    match precOf op with
    | some q =>
      if p ≤ q then
        let (o, r) := popWhileGe p rest
        (op :: o, r)
      else ([], op :: rest)
    | none => ([], op :: rest)

/-- Pops operators until an opening parenthesis, which is discarded;
an unmatched closing parenthesis drains the stack. -/
def popUntilLParen : List String → List String × List String
  | [] => ([], [])
  | op :: rest =>
    if op == "(" then ([], rest)
    else
      let (o, r) := popUntilLParen rest
      (op :: o, r)

/-- Embeds the token loop of to_rpn; out accumulates the postfix sequence in
order, the operator stack has its top at the head. -/
def rpnGo : List String → List String → List String → List String
  | [], out, opstack => out ++ opstack
  | raw :: ts, out, opstack =>
    let t := normTok raw
    if t == "(" then rpnGo ts out ("(" :: opstack)
    else if t == ")" then
      let (o, st) := popUntilLParen opstack
      rpnGo ts (out ++ o) st
    else
      match precOf t with
      | some p =>
        let (o, st) := popWhileGe p opstack
        rpnGo ts (out ++ o) (t :: st)
      | none => rpnGo ts (out ++ [raw]) opstack

/-- Embeds to_rpn of main.py. -/
def to_rpn (tokens : List String) : List String := rpnGo tokens [] []

/-- Compiled predicate tree: the closures built by compile_query are
defunctionalised into this expression type, evaluated by evalPred. -/
inductive QPred where
  | tt : QPred
  | term : String → QPred
  | pnot : QPred → QPred
  | pand : QPred → QPred → QPred
  | por : QPred → QPred → QPred
deriving DecidableEq

/-- Evaluates a compiled predicate on a row, as the closures of main.py. -/
def evalPred : QPred → Row → Bool
  | .tt, _ => true
  | .term t, row => evalTerm t row
  | .pnot p, row => !evalPred p row
  | .pand p q, row => evalPred p row && evalPred q row
  | .por p q, row => evalPred p row || evalPred q row

/-- Embeds one iteration of the postfix evaluation loop of compile_query.
The predicate stack has its top at the head; an operator finding too few
operands pushes the always-true predicate instead, as the source does. -/
def compileStep (preds : List QPred) (tok : String) : List QPred :=
  let u := pyUpper tok
  if u == "NOT" then
    match preds with
    | [] => [QPred.tt]
    | a :: rest => QPred.pnot a :: rest
  else if u == "AND" || u == "OR" then
    match preds with
    | b :: a :: rest => (if u == "AND" then QPred.pand a b else QPred.por a b) :: rest
    | _ => QPred.tt :: preds
  else QPred.term tok :: preds

/-- Embeds compile_query of main.py: strip, tokenize, convert to postfix,
evaluate the postfix sequence into a predicate stack and return its top;
none when the query is blank. -/
def compile_query (q : String) : Option QPred :=
  let q := pyStrip q
  if q == "" then none
  else
    let toks := tokenize q
    if toks == [] then none
    else
      let preds := (to_rpn toks).foldl compileStep []
      match preds with
      | [] => none
      | p :: _ => some p

/-- Row filter used by get_log: a blank query keeps every row. -/
def queryMatches (q : String) (row : Row) : Bool :=
  match compile_query q with
  | none => true
  | some p => evalPred p row

/-! ### main.py: get_log decoding and pagination -/

/-- Dict insertion with last-writer-wins on an existing key, preserving key
order, mirroring assignment into a Python dict. -/
def dictInsert (row : Row) (k v : String) : Row :=
  if row.any (fun kv => kv.1 == k) then
    row.map (fun kv => if kv.1 == k then (k, v) else kv)
  else row ++ [(k, v)]

/-- Embeds the row dict comprehension of get_log: pad short part lists with
empty strings, truncate long ones to the field count, then build the dict. -/
def mkRow (fields : List String) (parts : List String) : Row :=
  let parts := parts ++ List.replicate (fields.length - parts.length) ""
  let parts := parts.take fields.length
  (fields.zip parts).foldl (fun r kv => dictInsert r kv.1 kv.2) []

/-- Scan state of the get_log line loop. -/
structure ScanSt where
  fields : Option (List String)
  header : List String
  rows : List Row

/-- Embeds one iteration of the get_log line loop: header lines collect and
may set the field list; a data line before any fields line decodes as a raw
single-field row; other data lines decode against the field list; the row is
kept when there is no predicate or the predicate holds. -/
def scanLine (pred : Option QPred) (st : ScanSt) (line : String) : ScanSt :=
  if pyStartsWith line "#" then
    { st with
      header := st.header ++ [line],
      fields := if pyStartsWith line "#fields" then some ((pySplitTab line).drop 1) else st.fields }
  else
    let fr : List String × Row :=
      match st.fields with
      | none => (["_raw"], [("_raw", line)])
      | some fs => (fs, mkRow fs (pySplitTab line))
    let keep := match pred with
      | none => true
      | some p => evalPred p fr.2
    { fields := some fr.1, header := st.header,
      rows := if keep then st.rows ++ [fr.2] else st.rows }

/-- Response of get_log: field list, clamped offset and limit, total match
count, requested page and header lines. -/
structure LogResp where
  fields : List String
  offset : Int
  limit : Int
  total : Nat
  rows : List Row
  header : List String

/-- Embeds the body of get_log of main.py on the lines of a merged log file:
compile the query, decode and filter the rows in file order, clamp offset to
zero and limit into one to five thousand, and slice the page. -/
def get_log (lines : List String) (q : String) (offset limit : Int) : LogResp :=
  let pred := compile_query q
  let st := lines.foldl (scanLine pred) ⟨none, [], []⟩
  let total := st.rows.length
  let offset := if offset < 0 then 0 else offset
  let limit := if limit < 1 then 1 else limit
  let limit := if 5000 < limit then 5000 else limit
  { fields := st.fields.getD [],
    offset := offset,
    limit := limit,
    total := total,
    rows := (st.rows.drop offset.toNat).take limit.toNat,
    header := st.header }

/-! ### Helper lemmas for the sharding pass -/

/-- Zero-based shard index the loop routes one packet record to. -/
def routeIdx (workers : Nat) (r : List Nat × List Nat) : Nat :=
  hash_key (keyOf r) % workers

theorem getD_set_self (l : List α) (i : Nat) (v d : α) (h : i < l.length) :
    (l.set i v).getD i d = v := by
  simp [List.getD_eq_getElem?_getD, List.getElem?_set_self h]

theorem getD_set_ne (l : List α) (i j : Nat) (v d : α) (h : i ≠ j) :
    (l.set i v).getD j d = l.getD j d := by
  simp [List.getD_eq_getElem?_getD, List.getElem?_set_ne h]

theorem map_range_getD (l : List α) (d : α) :
    (List.range l.length).map (fun i => l.getD i d) = l := by
  induction l with
  | nil => rfl
  | cons a t ih =>
    rw [List.length_cons, List.range_succ_eq_map, List.map_cons, List.map_map]
    have h1 : ((fun i => (a :: t).getD i d) ∘ Nat.succ) = fun i => t.getD i d := by
      funext i
      simp [List.getD_cons_succ]
    have h0 : (a :: t).getD 0 d = a := rfl
    rw [h1, ih, h0]

theorem getD_replicate_of_lt (n i : Nat) (a d : α) (h : i < n) :
    (List.replicate n a).getD i d = a := by
  simp [List.getD_eq_getElem?_getD, List.getElem?_replicate, h]

/-- The sharding loop writes, after the seed contents, exactly the filtered
record stream of recLoop into each shard output, in input order. -/
theorem splitLoop_fst_eq (data : List Nat) (workers : Nat) :
    ∀ (fuel off : Nat) (outs : List (List Nat)) (fmap : List (List Nat × FlowRec)),
      outs.length = workers →
      (splitLoop data workers fuel off outs fmap).1 =
        (List.range workers).map (fun i =>
          outs.getD i [] ++
            ((recLoop data fuel off).filter (fun r => routeIdx workers r == i)).flatMap
              (fun r => r.1 ++ r.2)) := by
  intro fuel
  induction fuel with
  | zero =>
    intro off outs fmap h
    simp only [splitLoop, recLoop, List.filter_nil, List.flatMap_nil, List.append_nil]
    rw [← h]
    exact (map_range_getD outs []).symm
  | succ fuel ih =>
    intro off outs fmap h
    simp only [splitLoop, recLoop]
    by_cases h1 : off + PCAP_PKT_HDR_LEN ≤ data.length
    · rw [if_pos h1, if_pos h1]
      by_cases h2 : data.length <
          off + PCAP_PKT_HDR_LEN +
            fromBytesLE ((((data.drop off).take PCAP_PKT_HDR_LEN).drop 8).take 4)
      · rw [if_pos h2, if_pos h2]
        simp only [List.filter_nil, List.flatMap_nil, List.append_nil]
        rw [← h]
        exact (map_range_getD outs []).symm
      · rw [if_neg h2, if_neg h2]
        set pkt_hdr := (data.drop off).take PCAP_PKT_HDR_LEN with hhdr
        set incl_len := fromBytesLE ((pkt_hdr.drop 8).take 4) with hincl
        set pkt := (data.drop (off + PCAP_PKT_HDR_LEN)).take incl_len with hpkt
        set rec := (pkt_hdr, pkt) with hrec
        set idx := hash_key (tuple_for_packet pkt).1 % workers with hidx
        have hroute : routeIdx workers rec = idx := rfl
        have hlen : (outs.set idx (outs.getD idx [] ++ pkt_hdr ++ pkt)).length = workers := by
          rw [List.length_set, h]
        rw [ih _ _ _ hlen]
        apply List.map_congr_left
        intro i hi
        have hiw : i < workers := List.mem_range.mp hi
        by_cases hii : idx = i
        · subst hii
          have hset : (outs.set idx (outs.getD idx [] ++ pkt_hdr ++ pkt)).getD idx [] =
              outs.getD idx [] ++ pkt_hdr ++ pkt := by
            apply getD_set_self
            rw [h]
            exact hiw
          rw [hset]
          rw [List.filter_cons_of_pos (by simp [hroute]), List.flatMap_cons]
          simp [List.append_assoc]
        · have hset : (outs.set idx (outs.getD idx [] ++ pkt_hdr ++ pkt)).getD i [] =
              outs.getD i [] := getD_set_ne _ _ _ _ _ hii
          rw [hset]
          rw [List.filter_cons_of_neg (by simp [hroute, hii])]
    · rw [if_neg h1, if_neg h1]
      simp only [List.filter_nil, List.flatMap_nil, List.append_nil]
      rw [← h]
      exact (map_range_getD outs []).symm

/-- Every record the loop visits is complete: full 16-byte header and a
payload of exactly the declared captured length. -/
theorem recLoop_complete (data : List Nat) :
    ∀ (fuel off : Nat) (r : List Nat × List Nat), r ∈ recLoop data fuel off →
      r.1.length = PCAP_PKT_HDR_LEN ∧ r.2.length = fromBytesLE ((r.1.drop 8).take 4) := by
  intro fuel
  induction fuel with
  | zero =>
    intro off r hr
    simp [recLoop] at hr
  | succ fuel ih =>
    intro off r hr
    simp only [recLoop] at hr
    by_cases h1 : off + PCAP_PKT_HDR_LEN ≤ data.length
    · rw [if_pos h1] at hr
      by_cases h2 : data.length <
          off + PCAP_PKT_HDR_LEN +
            fromBytesLE ((((data.drop off).take PCAP_PKT_HDR_LEN).drop 8).take 4)
      · rw [if_pos h2] at hr
        simp at hr
      · rw [if_neg h2] at hr
        rcases List.mem_cons.mp hr with h | h
        · subst h
          have hhdr : ((data.drop off).take PCAP_PKT_HDR_LEN).length = PCAP_PKT_HDR_LEN := by
            simp [List.length_take, List.length_drop, PCAP_PKT_HDR_LEN]
            simp [PCAP_PKT_HDR_LEN] at h1
            omega
          refine ⟨hhdr, ?_⟩
          simp only [List.length_take, List.length_drop]
          omega
        · exact ih _ _ h
    · rw [if_neg h1] at hr
      simp at hr

/-- Each shard output of the pass is the global header followed by the
records routed to that shard index, in input order. -/
theorem shardOutputs_eq (data : List Nat) (n : Nat) :
    shardOutputs data n =
      (List.range n).map (fun i =>
        data.take PCAP_GLOBAL_HDR_LEN ++
          ((records data).filter (fun r => routeIdx n r == i)).flatMap (fun r => r.1 ++ r.2)) := by
  unfold shardOutputs records
  rw [splitLoop_fst_eq data n data.length PCAP_GLOBAL_HDR_LEN _ [] (List.length_replicate n _)]
  apply List.map_congr_left
  intro i hi
  rw [getD_replicate_of_lt n i _ [] (List.mem_range.mp hi)]

/-- Per-index reading of shardOutputs_eq. -/
theorem shardOutputs_getD (data : List Nat) (n i : Nat) (hi : i < n) :
    (shardOutputs data n).getD i [] =
      data.take PCAP_GLOBAL_HDR_LEN ++
        ((records data).filter (fun r => routeIdx n r == i)).flatMap (fun r => r.1 ++ r.2) := by
  rw [shardOutputs_eq, List.getD_eq_getElem?_getD, List.getElem?_map, List.getElem?_range hi]
  rfl

/-- Tiny concrete capture: 24-byte global header and one complete one-byte
packet record, used to instantiate the sharder theorems. -/
def capW : List Nat :=
  List.replicate 24 0 ++ [0, 0, 0, 0, 0, 0, 0, 0, 1, 0, 0, 0, 0, 0, 0, 0] ++ [5]

/-- C1: for every capture and every worker count N of at least one, the shard
assigned to a packet is a pure function of its flow key bytes and N: the
shard index is the first 8 bytes of the SHA-1 digest of the key read as a
big-endian unsigned integer mod N and the shard id is that index plus one;
records sharing one flow key are routed to the same shard output, and
re-running the sharder on the same capture and N reproduces the same map. -/
theorem C1_shard_assignment (data : List Nat) (n : Nat) (hn : 1 ≤ n) :
    (∀ key, workerId key n = fromBytesBE ((sha1 key).take 8) % n + 1)
    ∧ (∀ r1 r2, r1 ∈ records data → r2 ∈ records data → keyOf r1 = keyOf r2 →
        routeIdx n r1 = routeIdx n r2)
    ∧ (∀ r ∈ records data, routeIdx n r < n ∧
        (shardOutputs data n).getD (routeIdx n r) [] =
          data.take PCAP_GLOBAL_HDR_LEN ++
            ((records data).filter (fun s => routeIdx n s == routeIdx n r)).flatMap
              (fun s => s.1 ++ s.2))
    ∧ split_pcap_flowhash data n = split_pcap_flowhash data n := by
  refine ⟨fun key => rfl, ?_, ?_, rfl⟩
  · intro r1 r2 _ _ hk
    unfold routeIdx
    rw [hk]
  · intro r _
    have hlt : routeIdx n r < n := Nat.mod_lt _ (by omega)
    exact ⟨hlt, shardOutputs_getD data n _ hlt⟩

theorem C1_shard_assignment_witness :
    workerId [0] 2 = fromBytesBE ((sha1 [0]).take 8) % 2 + 1 :=
  (C1_shard_assignment capW 2 (by decide)).1 [0]

/-- C2: for every capture of at least 24 bytes, the sharder succeeds and each
shard output is exactly the shared global header followed by the complete
records routed to that shard, with header and payload bytes unchanged and
input order preserved; every record has a route index below the worker
count, hence lands in exactly one shard output. -/
theorem C2_every_record_in_one_shard (data : List Nat) (n : Nat)
    (h24 : PCAP_GLOBAL_HDR_LEN ≤ data.length) (hn : 1 ≤ n) :
    split_pcap_flowhash data n =
      .ok (shardOutputs data n, ((flowMapOf data n).map (fun kv => kv.2)).mergeSort flowRowLe)
    ∧ shardOutputs data n =
      (List.range n).map (fun i =>
        data.take PCAP_GLOBAL_HDR_LEN ++
          ((records data).filter (fun r => routeIdx n r == i)).flatMap (fun r => r.1 ++ r.2))
    ∧ ∀ r ∈ records data, routeIdx n r < n := by
  refine ⟨?_, shardOutputs_eq data n, fun r _ => Nat.mod_lt _ (by omega)⟩
  unfold split_pcap_flowhash
  rw [if_neg (by omega)]

theorem C2_every_record_in_one_shard_witness :
    split_pcap_flowhash capW 2 =
      .ok (shardOutputs capW 2, ((flowMapOf capW 2).map (fun kv => kv.2)).mergeSort flowRowLe) :=
  (C2_every_record_in_one_shard capW 2 (by decide) (by decide)).1

/-- C3: the sharder errors exactly when the input capture is smaller than the
24-byte global header and otherwise never fails; every record it processes is
complete, a trailing record whose header or declared payload would run past
the end of the input being dropped by the loop guards rather than raised. -/
theorem C3_error_iff_small (data : List Nat) (n : Nat) (hn : 1 ≤ n) :
    ((split_pcap_flowhash data n).isOk ↔ PCAP_GLOBAL_HDR_LEN ≤ data.length)
    ∧ (data.length < PCAP_GLOBAL_HDR_LEN →
        split_pcap_flowhash data n = .error "pcap too small")
    ∧ ∀ r ∈ records data,
        r.1.length = PCAP_PKT_HDR_LEN ∧ r.2.length = fromBytesLE ((r.1.drop 8).take 4) := by
  refine ⟨?_, ?_, fun r hr => recLoop_complete data _ _ r hr⟩
  · unfold split_pcap_flowhash
    by_cases h : data.length < PCAP_GLOBAL_HDR_LEN
    · rw [if_pos h]
      simp only [Except.isOk, Except.toBool]
      constructor
      · intro hfalse
        exact absurd hfalse (by simp)
      · intro hle
        omega
    · rw [if_neg h]
      simp only [Except.isOk, Except.toBool]
      constructor
      · intro _
        omega
      · intro _
        trivial
  · intro h
    unfold split_pcap_flowhash
    rw [if_pos h]

theorem C3_error_iff_small_witness :
    ((split_pcap_flowhash capW 2).isOk ↔ PCAP_GLOBAL_HDR_LEN ≤ capW.length)
    ∧ ((split_pcap_flowhash [0, 1, 2] 2).isOk ↔ PCAP_GLOBAL_HDR_LEN ≤ [0, 1, 2].length) :=
  ⟨(C3_error_iff_small capW 2 (by decide)).1, (C3_error_iff_small [0, 1, 2] 2 (by decide)).1⟩

/-- An ethernet IPv4 TCP packet of 34 bytes: the 20-byte IP header is
complete but no layer-4 bytes follow, so the port parse guard fails. -/
def pkt34 : List Nat :=
  [0, 0, 0, 0, 0, 0, 0, 0, 0, 0, 0, 0, 8, 0,
   0x45, 0, 0, 0, 0, 0, 0, 0, 0, 6, 0, 0, 1, 2, 3, 4, 5, 6, 7, 8]

/-- C4 counterexample: a well-formed IPv4 TCP packet with fewer than 4 bytes
beyond the IP header is classified by the raw-byte fallback key with the
zero display tuple, not by an IPv4 flow key with zero ports as claimed. -/
theorem C4_counterexample :
    (34 ≤ pkt34.length
      ∧ fromBytesBE ((pkt34.drop 12).take 2) = 0x0800
      ∧ (pkt34.drop 14).getD 0 0 >>> 4 = 4
      ∧ ((pkt34.drop 14).getD 0 0 &&& 0x0F) * 4 ≤ pkt34.length - 14
      ∧ (pkt34.drop 14).getD 9 0 = 6
      ∧ pkt34.length - 14 < ((pkt34.drop 14).getD 0 0 &&& 0x0F) * 4 + 4)
    ∧ ipv4_tuple pkt34 = none
    ∧ (tuple_for_packet pkt34).2.ip_ver = 0
    ∧ (tuple_for_packet pkt34).1 = 88 :: pkt34.take 64 := by decide

/-- C4 as amended: for every IPv4 packet (ether-type 0x0800, version nibble
4, buffer at least the declared IP header length) whose protocol byte is
TCP(6) or UDP(17) but which has fewer than 4 bytes beyond the IP header,
classification returns the raw-byte fallback key (tag X and the first 64
packet bytes) with the zero display tuple; ports of zero without fallback
occur only for protocols other than TCP and UDP. -/
theorem C4_short_transport_falls_back (pkt : List Nat)
    (hlen : 34 ≤ pkt.length)
    (heth : fromBytesBE ((pkt.drop 12).take 2) = 0x0800)
    (hver : (pkt.drop 14).getD 0 0 >>> 4 = 4)
    (hihl : ((pkt.drop 14).getD 0 0 &&& 0x0F) * 4 ≤ pkt.length - 14)
    (hproto : (pkt.drop 14).getD 9 0 = 6 ∨ (pkt.drop 14).getD 9 0 = 17)
    (hshort : pkt.length - 14 < ((pkt.drop 14).getD 0 0 &&& 0x0F) * 4 + 4) :
    tuple_for_packet pkt = (88 :: pkt.take 64, ⟨0, "-", "-", 0, 0, 0⟩) := by
  have hv4 : ipv4_tuple pkt = none := by
    unfold ipv4_tuple
    rw [if_neg (by omega), if_neg (by rw [heth]; simp)]
    simp only
    rw [if_neg (by rw [hver]; simp)]
    rw [if_neg (by rw [List.length_drop]; omega)]
    rw [if_pos hproto, if_pos (by rw [List.length_drop]; omega)]
  have hv6 : ipv6_tuple pkt = none := by
    unfold ipv6_tuple
    by_cases h54 : pkt.length < 14 + 40
    · rw [if_pos h54]
    · rw [if_neg h54, if_pos (by rw [heth]; simp)]
  unfold tuple_for_packet
  rw [hv4, hv6]

theorem C4_short_transport_falls_back_witness :
    tuple_for_packet pkt34 = (88 :: pkt34.take 64, ⟨0, "-", "-", 0, 0, 0⟩) :=
  C4_short_transport_falls_back pkt34 (by decide) (by decide) (by decide) (by decide)
    (Or.inl (by decide)) (by decide)

/-- C6: boolean precedence NOT over AND over OR: on any row where the bare
term a matches no field while b and c each match some field, the compiled
query a OR b AND NOT c evaluates to false, because it parses as
a OR (b AND (NOT c)). -/
theorem C6_precedence (row : Row)
    (ha : evalTerm "a" row = false)
    (hb : evalTerm "b" row = true)
    (hc : evalTerm "c" row = true) :
    queryMatches "a OR b AND NOT c" row = false := by
  have hcq : compile_query "a OR b AND NOT c" =
      some (QPred.por (QPred.term "a")
        (QPred.pand (QPred.term "b") (QPred.pnot (QPred.term "c")))) := by decide
  unfold queryMatches
  rw [hcq]
  simp [evalPred, ha, hb, hc]

theorem C6_precedence_witness :
    queryMatches "a OR b AND NOT c" [("g", "b"), ("h", "c")] = false :=
  C6_precedence [("g", "b"), ("h", "c")] (by decide) (by decide) (by decide)

/-- C7: the atom alternative of the tokenizer regex precedes the
quoted-string alternative and a double quote is a legal atom character, so a
quoted value containing whitespace is split at the whitespace instead of
being one token; the compiled predicate then matches the raw fragments with
their quote characters, not the inner text.  A quoted value without
whitespace still reaches strip_quotes through the atom path. -/
theorem C7_quoted_value_splits :
    tokenize "f:\"foo bar\"" = ["f:\"foo", "bar\""]
    ∧ compile_query "f:\"foo bar\"" = some (QPred.term "bar\"")
    ∧ queryMatches "f:\"foo bar\"" [("f", "foo bar")] = false
    ∧ tokenize "f:\"foo\"" = ["f:\"foo\""] := by decide

/-- With enough fuel, a wildcard pattern matches the empty value exactly
when it consists solely of star characters. -/
theorem wildMatchF_nil (fuel : Nat) :
    ∀ ps : List Char, ps.length < fuel → wildMatchF fuel ps [] = ps.all (fun c => c == '*') := by
  induction fuel with
  | zero =>
    intro ps h
    omega
  | succ fuel ih =>
    intro ps h
    match ps with
    | [] => rfl
    | c :: ps2 =>
      have hlen : ps2.length < fuel := by
        simp only [List.length_cons] at h
        omega
      by_cases hc : c = '*'
      · subst hc
        rw [wildMatchF]
        simp [ih ps2 hlen]
      · by_cases h2 : c = '?'
        · subst h2
          rw [wildMatchF]
          simp
        · rw [wildMatchF.eq_def]
          split
          all_goals simp_all

/-- A wildcard pattern matches the empty value exactly when it consists
solely of star characters. -/
theorem wildMatch_nil_iff (ps : List Char) :
    wildMatch ps [] = ps.all (fun c => c == '*') := by
  unfold wildMatch
  exact wildMatchF_nil (ps.length + [].length + 1) ps (by simp)

/-- C8 counterexample: the query on field f with the non-empty pattern of a
single star matches a row where f is absent, since the missing field reads
as the empty string and a pattern of only stars matches the empty string. -/
theorem C8_counterexample :
    compile_query "f:*" = some (QPred.term "f:*")
    ∧ splitFieldTerm (strip_quotes "f:*") = some ("f", "*")
    ∧ List.find? (fun kv => kv.1 == "f") ([] : Row) = none
    ∧ evalPred (QPred.term "f:*") [] = true := by decide

/-- C8 as amended: for every row in which field f is absent and every
wildcard pattern containing at least one character other than a star, the
compiled predicate of the field query returns false: the missing field
defaults to the empty string, which fails every such pattern (a pattern
consisting solely of stars matches the empty string instead). -/
theorem C8_missing_field_never_matches (q f p : String) (row : Row)
    (hsplit : splitFieldTerm (strip_quotes q) = some (f, p))
    (hp : p.data.all (fun c => c == '*') = false)
    (habsent : List.find? (fun kv => kv.1 == f) row = none) :
    evalPred (QPred.term q) row = false := by
  show evalTerm q row = false
  have hstep : evalTerm q row = match_value (rowGet row f) p := by
    simp only [evalTerm, hsplit]
  rw [hstep]
  have hget : rowGet row f = "" := by
    unfold rowGet
    rw [habsent]
    rfl
  rw [hget]
  show wildMatch p.data [] = false
  rw [wildMatch_nil_iff, hp]

theorem C8_missing_field_never_matches_witness :
    evalPred (QPred.term "f:ab") [] = false :=
  C8_missing_field_never_matches "f:ab" "f" "ab" [] (by decide) (by decide) (by decide)

/-- C9: query compilation is total and substitutes the always-true predicate
whenever the postfix sequence presents an operator with too few operands on
the stack, so a malformed query such as the bare AND compiles to the most
permissive match instead of failing. -/
theorem C9_malformed_operator_degrades :
    (∀ (preds : List QPred) (t : String),
        (pyUpper t = "AND" ∨ pyUpper t = "OR") → preds.length < 2 →
        compileStep preds t = QPred.tt :: preds)
    ∧ (∀ t : String, pyUpper t = "NOT" → compileStep [] t = [QPred.tt])
    ∧ compile_query "AND" = some QPred.tt
    ∧ (∀ row : Row, evalPred QPred.tt row = true ∧ queryMatches "AND" row = true) := by
  have hAND : compile_query "AND" = some QPred.tt := by decide
  refine ⟨?_, ?_, hAND, ?_⟩
  · intro preds t ht hlen
    cases preds with
    | nil => rcases ht with h | h <;> simp [compileStep, h]
    | cons a tail =>
      cases tail with
      | nil => rcases ht with h | h <;> simp [compileStep, h]
      | cons b rest =>
        simp only [List.length_cons] at hlen
        omega
  · intro t h
    simp [compileStep, h]
  · intro row
    refine ⟨rfl, ?_⟩
    unfold queryMatches
    rw [hAND]
    rfl

theorem C9_malformed_operator_degrades_witness :
    compileStep [] "AND" = [QPred.tt]
    ∧ compileStep [] "NOT" = [QPred.tt]
    ∧ queryMatches "AND" [] = true :=
  ⟨C9_malformed_operator_degrades.1 [] "AND" (Or.inl (by decide)) (by decide),
   C9_malformed_operator_degrades.2.1 "NOT" (by decide),
   (C9_malformed_operator_degrades.2.2.2 []).2⟩

/-- The ts comparison is transitive. -/
theorem tsLe_trans (i : Nat) : ∀ a b c, tsLe i a b → tsLe i b c → tsLe i a c := by
  intro a b c hab hbc
  simp only [tsLe, decide_eq_true_eq] at hab hbc ⊢
  exact le_trans hab hbc

/-- The ts comparison is total. -/
theorem tsLe_total (i : Nat) : ∀ a b, tsLe i a b || tsLe i b a := by
  intro a b
  simp only [tsLe]
  by_cases h : ts_val i a ≤ ts_val i b
  · simp [h]
  · simp [le_of_not_le h]

/-- C5: for every set of worker log files merged under one log name, when
the first (canonical) worker field list contains a ts field the merged rows
are a permutation of the worker-order concatenation that is non-decreasing
in the parsed ts value, and any two concatenation-ordered rows with equal ts
keep their relative order (stability); with no ts field the concatenation
order is returned unchanged. -/
theorem C5_merge_sorted_stable (files : List (List String)) (f0 : List String)
    (rest : List (List String)) (hf : files = f0 :: rest) :
    (∀ ts_i, ts_index (read_zeek_log f0).2.1 = some ts_i →
      ((merge_worker_logs files).2.Pairwise (fun a b => ts_val ts_i a ≤ ts_val ts_i b)
        ∧ (merge_worker_logs files).2.Perm (concatRows files)
        ∧ ∀ a b, [a, b].Sublist (concatRows files) → ts_val ts_i a = ts_val ts_i b →
            [a, b].Sublist (merge_worker_logs files).2))
    ∧ (ts_index (read_zeek_log f0).2.1 = none →
        (merge_worker_logs files).2 = concatRows files) := by
  subst hf
  constructor
  · intro i hi
    have hm : (merge_worker_logs (f0 :: rest)).2 =
        (concatRows (f0 :: rest)).mergeSort (tsLe i) := by
      simp only [merge_worker_logs, hi]
    rw [hm]
    refine ⟨?_, List.mergeSort_perm _ _, ?_⟩
    · exact (List.sorted_mergeSort (tsLe_trans i) (tsLe_total i)
        (concatRows (f0 :: rest))).imp
          (fun h => by simpa [tsLe, decide_eq_true_eq] using h)
    · intro a b hab heq
      apply List.pair_sublist_mergeSort (tsLe_trans i) (tsLe_total i) ?_ hab
      simp [tsLe, heq]
  · intro hnone
    simp only [merge_worker_logs, hnone]

theorem C5_merge_sorted_stable_witness :
    (merge_worker_logs [["#fields\tts\tmsg", "2.0\tx", "1.0\ty"]]).2.Pairwise
      (fun a b => ts_val 0 a ≤ ts_val 0 b) :=
  ((C5_merge_sorted_stable [["#fields\tts\tmsg", "2.0\tx", "1.0\ty"]]
    ["#fields\tts\tmsg", "2.0\tx", "1.0\ty"] [] rfl).1 0 (by decide)).1

/-- The decoded rows of the lines as get_log accumulates them with no
predicate: the full row list of the file. -/
def allRowsOf (lines : List String) : List Row :=
  (lines.foldl (scanLine none) ⟨none, [], []⟩).rows

/-- With no predicate, the scan appends exactly one row per non-header line. -/
theorem scan_none_rows (lines : List String) :
    ∀ st : ScanSt, (lines.foldl (scanLine none) st).rows.length =
      st.rows.length + (lines.filter (fun l => !pyStartsWith l "#")).length := by
  induction lines with
  | nil =>
    intro st
    simp
  | cons l ls ih =>
    intro st
    rw [List.foldl_cons, ih (scanLine none st l), List.filter_cons]
    by_cases h : pyStartsWith l "#"
    · simp [scanLine, h]
    · simp only [scanLine, h, Bool.not_false, if_pos, Bool.false_eq_true, if_false,
        List.length_cons]
      simp
      omega

/-- C10: with an empty or whitespace-only query, compilation returns no
predicate, get_log keeps every decoded data row, the reported total is the
number of non-comment non-empty lines (merged logs have no empty data
lines), and the returned page is the full row list sliced from offset for
limit rows. -/
theorem C10_blank_query_selects_all (lines : List String) (q : String)
    (offset limit : Int)
    (hq : pyStrip q = "")
    (hne : ∀ l ∈ lines, pyStartsWith l "#" = false → l ≠ "")
    (ho : 0 ≤ offset) (hl1 : 1 ≤ limit) (hl2 : limit ≤ 5000) :
    compile_query q = none
    ∧ (get_log lines q offset limit).total = (allRowsOf lines).length
    ∧ (get_log lines q offset limit).total =
        (lines.filter (fun l => !pyStartsWith l "#" && l != "")).length
    ∧ (get_log lines q offset limit).rows =
        ((allRowsOf lines).drop offset.toNat).take limit.toNat := by
  have hcq : compile_query q = none := by
    unfold compile_query
    rw [hq]
    rfl
  have hoff : (if offset < 0 then 0 else offset) = offset := by
    rw [if_neg (by omega)]
  have hlim1 : (if limit < 1 then 1 else limit) = limit := by
    rw [if_neg (by omega)]
  have hfilter : lines.filter (fun l => !pyStartsWith l "#") =
      lines.filter (fun l => !pyStartsWith l "#" && l != "") := by
    apply List.filter_congr
    intro l hl
    by_cases h : pyStartsWith l "#"
    · simp [h]
    · have hne2 : l ≠ "" := hne l hl (by simp [h])
      simp [h, hne2]
  refine ⟨hcq, ?_, ?_, ?_⟩
  · simp only [get_log, hcq, allRowsOf]
  · simp only [get_log, hcq]
    rw [scan_none_rows]
    simp only [List.length_nil, Nat.zero_add]
    rw [hfilter]
  · simp only [get_log, hcq, allRowsOf, hoff, hlim1]
    rw [if_neg (by omega)]

theorem C10_blank_query_selects_all_witness :
    (get_log ["#fields\tts", "1", "2"] " " 1 2).total =
      (["#fields\tts", "1", "2"].filter (fun l => !pyStartsWith l "#" && l != "")).length :=
  (C10_blank_query_selects_all ["#fields\tts", "1", "2"] " " 1 2 (by decide) (by decide)
    (by decide) (by decide) (by decide)).2.2.1
